import Mathlib

/-!
Shallow embedding of `solver/solve_sprint.py` (sprint-planning MILP builder and
result extractor). Python floats are modelled as rationals; Python dictionaries
built by comprehension (later keys overwrite earlier ones) are modelled by
`dictLast`; Python code paths that raise (`TypeError` on comparing `None`,
`ZeroDivisionError`) are modelled with `Except`.
-/

namespace SprintPlanning

/-- A row of `data/people.csv`: person, role, capacity_hours. -/
structure PersonRow where
  person : String
  role : String
  capacity_hours : ℚ
deriving DecidableEq, Repr

/-- A row of `data/stories.csv`: story_id, points, value, depends_on
(empty string means no dependency). -/
structure StoryRow where
  story_id : String
  points : Int
  value : ℚ
  depends_on : String
deriving DecidableEq, Repr

/-- A row of `data/roles.csv`. -/
structure RoleRow where
  role : String
  share_of_hours : ℚ
  meeting_load_per_story_hours : ℚ
  bug_hours_per_bug : ℚ
deriving DecidableEq, Repr

/-- The scalar parameters read from `data/config.yaml`. -/
structure Config where
  hours_per_point : ℚ
  bugs_per_sprint : Int
  max_points_per_dev : Int
  lambda_people_penalty : ℚ
  require_release_for_roles : List String
  min_hours_to_count_release : ℚ
  qa_coverage_factor : ℚ
  wip_factor_QA_capacity : ℚ
  forbid_points : List Int
deriving DecidableEq, Repr

/-- The whole input of one planning run. -/
structure Input where
  people : List PersonRow
  stories : List StoryRow
  roles : List RoleRow
  cfg : Config
deriving DecidableEq, Repr

/-- Lookup in a Python dict built by comprehension: the LAST binding of a key wins. -/
def dictLast {α : Type} (k : String) : List (String × α) → Option α
  | [] => none
  | kv :: rest =>
    match dictLast k rest with
    | some v => some v
    | none => if kv.1 = k then some kv.2 else none

/-- `I = [p["person"] for p in people_rows]`. -/
def ids (inp : Input) : List String := inp.people.map (·.person)

/-- `role_of[i]` (total with default "", only ever used at keys present). -/
def role_of (inp : Input) (i : String) : String :=
  (dictLast i (inp.people.map fun p => (p.person, p.role))).getD ""

/-- `cap_i[i]` (total with default 0, only ever used at keys present). -/
def cap_i (inp : Input) (i : String) : ℚ :=
  (dictLast i (inp.people.map fun p => (p.person, p.capacity_hours))).getD 0

/-- The value `I_by_role[r]`: the people whose (final) role is `r`, in roster order. -/
def I_by_role (inp : Input) (r : String) : List String :=
  (ids inp).filter fun i => role_of inp i == r

/-- Key membership `r in I_by_role` as tested at lines 116/121: the defaultdict
holds a key for every role of a person, and the comprehension at line 90
(`for r in R`) has inserted every role of `roles.csv` as well. -/
def I_by_role_hasKey (inp : Input) (r : String) : Bool :=
  ((ids inp).any fun i => role_of inp i == r) || (inp.roles.any fun rr => rr.role == r)

/-- A story row survives the `forbid_points` filter. -/
def keepStory (inp : Input) (st : StoryRow) : Bool :=
  !(inp.cfg.forbid_points.contains st.points)

/-- `S`: the eligible story ids. -/
def S (inp : Input) : List String :=
  (inp.stories.filter (keepStory inp)).map (·.story_id)

/-- `points[s]` over the filtered rows (default 0, only used at keys present). -/
def points (inp : Input) (s : String) : Int :=
  (dictLast s ((inp.stories.filter (keepStory inp)).map fun st =>
    (st.story_id, st.points))).getD 0

/-- `value[s]` over the filtered rows (default 0, only used at keys present). -/
def value (inp : Input) (s : String) : ℚ :=
  (dictLast s ((inp.stories.filter (keepStory inp)).map fun st =>
    (st.story_id, st.value))).getD 0

/-- Python `str.strip()`: drop whitespace from both ends (structurally, over
the character list). -/
def pyStrip (s : String) : String :=
  ⟨(((s.data.dropWhile Char.isWhitespace).reverse.dropWhile Char.isWhitespace).reverse)⟩

/-- `deps`: pairs (dependent, predecessor), for non-forbidden dependents whose
stripped `depends_on` field is nonempty. -/
def deps (inp : Input) : List (String × String) :=
  inp.stories.filterMap fun st =>
    if keepStory inp st then
      if pyStrip st.depends_on ≠ "" then some (st.story_id, pyStrip st.depends_on) else none
    else none

/-- `role_share.get(r, 0.0)`. -/
def role_share (inp : Input) (r : String) : ℚ :=
  (dictLast r (inp.roles.map fun rr => (rr.role, rr.share_of_hours))).getD 0

/-- `mtg_per_story.get(r, 0.0)`. -/
def mtg_per_story (inp : Input) (r : String) : ℚ :=
  (dictLast r (inp.roles.map fun rr => (rr.role, rr.meeting_load_per_story_hours))).getD 0

/-- `bug_hours_per_bug.get(r, 0.0)`. -/
def bug_hours_per_bug (inp : Input) (r : String) : ℚ :=
  (dictLast r (inp.roles.map fun rr => (rr.role, rr.bug_hours_per_bug))).getD 0

/-- `hrs_tot[s] = points[s] * hours_per_point`. -/
def hrs_tot (inp : Input) (s : String) : ℚ :=
  (points inp s : ℚ) * inp.cfg.hours_per_point

/-- The `req` dict as first built (lines 76-80), before the meeting-load loop. -/
def reqBase (inp : Input) (s : String) : String → ℚ
  | "BE" => role_share inp "BE" * hrs_tot inp s
  | "FE" => role_share inp "FE" * hrs_tot inp s
  | "QA" => role_share inp "QA" * hrs_tot inp s * inp.cfg.qa_coverage_factor
  | "TL" => role_share inp "TL" * hrs_tot inp s
  | "ARQ" => role_share inp "ARQ" * hrs_tot inp s
  | _ => 0

/-- The `req` dict after the meeting-load loop (lines 83-87): for QA and TL,
`mtg_per_story.get(r, 0.0)` is added when it is positive. -/
def req (inp : Input) (s : String) (r : String) : ℚ :=
  if (r = "QA" ∨ r = "TL") ∧ 0 < mtg_per_story inp r then
    reqBase inp s r + mtg_per_story inp r
  else reqBase inp s r

/-- Key membership in `roles.csv` (the keys of `role_cap` and friends are `R`). -/
def inR (inp : Input) (r : String) : Bool := inp.roles.any fun rr => rr.role == r

/-- `role_cap[r] = sum(cap_i[i] for i in I_by_role[r])`. -/
def role_cap (inp : Input) (r : String) : ℚ :=
  ((I_by_role inp r).map (cap_i inp)).sum

/-- `role_cap.get(r, 0.0)` (the dict's keys are exactly `R`). -/
def role_capGet (inp : Input) (r : String) : ℚ :=
  if inR inp r then role_cap inp r else 0

/-- `role_bug_reserve[r] = bugs_per_sprint * bug_hours_per_bug.get(r, 0.0)`. -/
def role_bug_reserve (inp : Input) (r : String) : ℚ :=
  (inp.cfg.bugs_per_sprint : ℚ) * bug_hours_per_bug inp r

/-- The `role_cap_eff` dict after line 94: keys are `R` together with "QA";
`role_cap_eff["QA"]` is overwritten with
`min(role_cap_eff.get("QA", 0.0), role_cap.get("QA", 0.0) * wip_factor_QA)`. -/
def role_cap_eff (inp : Input) (r : String) : Option ℚ :=
  if r = "QA" then
    some (min (if inR inp "QA" then role_cap inp "QA" - role_bug_reserve inp "QA" else 0)
              (role_capGet inp "QA" * inp.cfg.wip_factor_QA_capacity))
  else if inR inp r then some (role_cap inp r - role_bug_reserve inp r)
  else none

/-- `role_cap_eff[r]` as indexed at line 122 (a missing key would be a Python
`KeyError`; no claim exercises that path). -/
def role_cap_effD (inp : Input) (r : String) : ℚ :=
  (role_cap_eff inp r).getD 0

/-! ## The optimization model (lines 97-145), as declarative data. -/

/-- The decision variables of the MILP: `x`, `z`, `y`, `owner`, `rel`. -/
inductive Var : Type
  | x (i s : String)
  | z (s : String)
  | y (i : String)
  | owner (i s : String)
  | rel (i : String)
deriving DecidableEq, Repr

/-- Comparison sense of a linear constraint. -/
inductive Cmp : Type
  | le
  | eq
  | ge
deriving DecidableEq, Repr

/-- A named linear constraint in the normal form `Σ coeff·var  cmp  rhs`. -/
structure Constr where
  name : String
  terms : List (ℚ × Var)
  cmp : Cmp
  rhs : ℚ
deriving DecidableEq, Repr

/-- The assembled problem: declared variables, objective terms (to maximize),
and constraints. -/
structure Model where
  vars : List Var
  objective : List (ℚ × Var)
  constraints : List Constr
deriving DecidableEq, Repr

/-- The fixed role tuple iterated at lines 115 and 120. -/
def roleList : List String := ["BE", "FE", "QA", "TL", "ARQ"]

/-- `devs = [i for i in I if role_of[i] in ("BE","FE")]` (line 125). -/
def devs (inp : Input) : List String :=
  (ids inp).filter fun i => role_of inp i == "BE" || role_of inp i == "FE"

/-- The declared variables (lines 100-104): `x` and `owner` over all of
`I × S`, `z` over `S`, `y` and `rel` over `I`. -/
def modelVars (inp : Input) : List Var :=
  ((ids inp).flatMap fun i => (S inp).map fun s => Var.x i s)
    ++ (S inp).map Var.z
    ++ (ids inp).map Var.y
    ++ ((ids inp).flatMap fun i => (S inp).map fun s => Var.owner i s)
    ++ (ids inp).map Var.rel

/-- Objective (line 107): `Σ value[s]·z[s] − lambda·Σ y[i]`. -/
def objectiveTerms (inp : Input) : List (ℚ × Var) :=
  ((S inp).map fun s => (value inp s, Var.z s))
    ++ ((ids inp).map fun i => (-inp.cfg.lambda_people_penalty, Var.y i))

/-- `Cap_i`: `Σ_s x[i,s] − cap_i[i]·y[i] ≤ 0` (line 111). -/
def capConstr (inp : Input) (i : String) : Constr :=
  { name := "Cap_" ++ i
    terms := ((S inp).map fun s => ((1 : ℚ), Var.x i s)) ++ [(-cap_i inp i, Var.y i)]
    cmp := Cmp.le
    rhs := 0 }

def capCs (inp : Input) : List Constr := (ids inp).map (capConstr inp)

/-- `Req_r_s`: `Σ_{i ∈ I_by_role[r]} x[i,s] − req[s,r]·z[s] ≥ 0` (line 117). -/
def reqConstr (inp : Input) (s r : String) : Constr :=
  { name := "Req_" ++ r ++ "_" ++ s
    terms := ((I_by_role inp r).map fun i => ((1 : ℚ), Var.x i s)) ++ [(-req inp s r, Var.z s)]
    cmp := Cmp.ge
    rhs := 0 }

def reqCs (inp : Input) : List Constr :=
  (S inp).flatMap fun s =>
    roleList.filterMap fun r =>
      if I_by_role_hasKey inp r then some (reqConstr inp s r) else none

/-- `RoleCap_r`: `Σ_{s ∈ S} Σ_{i ∈ I_by_role[r]} x[i,s] ≤ role_cap_eff[r]` (line 122). -/
def roleCapConstr (inp : Input) (r : String) : Constr :=
  { name := "RoleCap_" ++ r
    terms := (S inp).flatMap fun s => (I_by_role inp r).map fun i => ((1 : ℚ), Var.x i s)
    cmp := Cmp.le
    rhs := role_cap_effD inp r }

def roleCapCs (inp : Input) : List Constr :=
  roleList.filterMap fun r =>
    if I_by_role_hasKey inp r then some (roleCapConstr inp r) else none

/-- `OwnerOne_s`: `Σ_{i ∈ devs} owner[i,s] − z[s] = 0` (line 127). -/
def ownerOneConstr (inp : Input) (s : String) : Constr :=
  { name := "OwnerOne_" ++ s
    terms := ((devs inp).map fun i => ((1 : ℚ), Var.owner i s)) ++ [((-1 : ℚ), Var.z s)]
    cmp := Cmp.eq
    rhs := 0 }

/-- `OwnerHours_i_s`: `x[i,s] − theta·owner[i,s] ≥ 0` (line 130). -/
def ownerHoursConstr (inp : Input) (i s : String) : Constr :=
  { name := "OwnerHours_" ++ i ++ "_" ++ s
    terms := [((1 : ℚ), Var.x i s), (-inp.cfg.min_hours_to_count_release, Var.owner i s)]
    cmp := Cmp.ge
    rhs := 0 }

def ownerCs (inp : Input) : List Constr :=
  (S inp).flatMap fun s =>
    ownerOneConstr inp s :: (devs inp).map fun i => ownerHoursConstr inp i s

/-- `PointsCap_i`: `Σ_s points[s]·owner[i,s] ≤ max_points_per_dev` (line 134). -/
def pointsCapConstr (inp : Input) (i : String) : Constr :=
  { name := "PointsCap_" ++ i
    terms := (S inp).map fun s => ((points inp s : ℚ), Var.owner i s)
    cmp := Cmp.le
    rhs := (inp.cfg.max_points_per_dev : ℚ) }

def pointsCapCs (inp : Input) : List Constr := (devs inp).map (pointsCapConstr inp)

/-- `RelLink_i`: `rel[i] − Σ_s owner[i,s] ≤ 0` (line 139). -/
def relLinkConstr (inp : Input) (i : String) : Constr :=
  { name := "RelLink_" ++ i
    terms := ((1 : ℚ), Var.rel i) :: (S inp).map fun s => ((-1 : ℚ), Var.owner i s)
    cmp := Cmp.le
    rhs := 0 }

/-- `RelActive_i`: `rel[i] − y[i] ≥ 0` (line 140). -/
def relActiveConstr (i : String) : Constr :=
  { name := "RelActive_" ++ i
    terms := [((1 : ℚ), Var.rel i), ((-1 : ℚ), Var.y i)]
    cmp := Cmp.ge
    rhs := 0 }

def relCs (inp : Input) : List Constr :=
  (devs inp).flatMap fun i => [relLinkConstr inp i, relActiveConstr i]

/-- `Dep_s_on_p`: `z[s] − z[p] ≤ 0` (line 145). -/
def depConstr (s p : String) : Constr :=
  { name := "Dep_" ++ s ++ "_on_" ++ p
    terms := [((1 : ℚ), Var.z s), ((-1 : ℚ), Var.z p)]
    cmp := Cmp.le
    rhs := 0 }

def depCs (inp : Input) : List Constr :=
  (deps inp).filterMap fun sp =>
    if (S inp).contains sp.2 then some (depConstr sp.1 sp.2) else none

/-- The whole model built at lines 97-145. -/
def buildModel (inp : Input) : Model :=
  { vars := modelVars inp
    objective := objectiveTerms inp
    constraints := capCs inp ++ reqCs inp ++ roleCapCs inp ++ ownerCs inp
      ++ pointsCapCs inp ++ relCs inp ++ depCs inp }

/-! ## Semantics of the model. -/

/-- Value of a linear expression under a valuation of the variables. -/
def evalTerms (v : Var → ℚ) (ts : List (ℚ × Var)) : ℚ :=
  (ts.map fun t => t.1 * v t.2).sum

/-- Whether one constraint holds under a valuation. -/
def holds (v : Var → ℚ) (c : Constr) : Bool :=
  match c.cmp with
  | Cmp.le => decide (evalTerms v c.terms ≤ c.rhs)
  | Cmp.eq => decide (evalTerms v c.terms = c.rhs)
  | Cmp.ge => decide (c.rhs ≤ evalTerms v c.terms)

/-- A valuation satisfies every constraint of a model. -/
def Sat (m : Model) (v : Var → ℚ) : Prop := ∀ c ∈ m.constraints, holds v c = true

/-- A 0/1 value, the domain of the binary variables. -/
def Binary (q : ℚ) : Prop := q = 0 ∨ q = 1

/-- A valuation respecting the declared variable domains: `z`, `y`, `owner`,
`rel` binary, `x` nonnegative. -/
def ValidVal (inp : Input) (v : Var → ℚ) : Prop :=
  (∀ s ∈ S inp, Binary (v (Var.z s)))
    ∧ (∀ i ∈ ids inp, Binary (v (Var.y i)) ∧ Binary (v (Var.rel i)))
    ∧ (∀ i ∈ ids inp, ∀ s ∈ S inp, Binary (v (Var.owner i s)) ∧ 0 ≤ v (Var.x i s))

instance (m : Model) (v : Var → ℚ) : Decidable (Sat m v) :=
  inferInstanceAs (Decidable (∀ c ∈ m.constraints, holds v c = true))

instance (q : ℚ) : Decidable (Binary q) :=
  inferInstanceAs (Decidable (q = 0 ∨ q = 1))

instance (inp : Input) (v : Var → ℚ) : Decidable (ValidVal inp v) :=
  inferInstanceAs (Decidable ((∀ s ∈ S inp, Binary (v (Var.z s)))
    ∧ (∀ i ∈ ids inp, Binary (v (Var.y i)) ∧ Binary (v (Var.rel i)))
    ∧ (∀ i ∈ ids inp, ∀ s ∈ S inp, Binary (v (Var.owner i s)) ∧ 0 ≤ v (Var.x i s))))

/-! ## Result extraction (lines 151-210).

The solver hands back an optional value per variable (`pl.value` returns `None`
when the variable has no solution value). Python expressions that can raise are
modelled in `Except String`. -/

/-- `pl.value(v) > 0.5`: comparing `None` with a float raises `TypeError`. -/
def pyGtHalf (a : Option ℚ) : Except String Bool :=
  match a with
  | none => Except.error "TypeError"
  | some q => Except.ok (decide ((1 : ℚ)/2 < q))

/-- Python `round(q, 2)`. (Python rounds ties to even on binary floats; ties are
modelled half-up here — no claim depends on tie behaviour.) -/
def round2 (q : ℚ) : ℚ := (round (q * 100) : ℚ) / 100

/-- Python `round(q, 3)`, same modelling as `round2`. -/
def round3 (q : ℚ) : ℚ := (round (q * 1000) : ℚ) / 1000

/-- A row of `results/selected_stories.csv`. -/
structure SelRow where
  story_id : String
  pts : Int
  val : ℚ
  owner : Option String
deriving DecidableEq, Repr

/-- The owner search of lines 160-164: first dev whose owner value exceeds 0.5,
`None` if none. -/
def findOwner (v : Var → Option ℚ) (s : String) : List String → Except String (Option String)
  | [] => Except.ok none
  | i :: rest =>
    match pyGtHalf (v (Var.owner i s)) with
    | Except.error e => Except.error e
    | Except.ok b => if b then Except.ok (some i) else findOwner v s rest

/-- The selection loop of lines 156-165 over a list of stories. -/
def selRowsFrom (inp : Input) (v : Var → Option ℚ) : List String → Except String (List SelRow)
  | [] => Except.ok []
  | s :: rest =>
    match pyGtHalf (v (Var.z s)) with
    | Except.error e => Except.error e
    | Except.ok b =>
      if b then
        match findOwner v s (devs inp) with
        | Except.error e => Except.error e
        | Except.ok o =>
          match selRowsFrom inp v rest with
          | Except.error e => Except.error e
          | Except.ok tail =>
            Except.ok ({ story_id := s, pts := points inp s, val := value inp s,
                         owner := o } :: tail)
      else selRowsFrom inp v rest

/-- The selected-stories view. -/
def selectedView (inp : Input) (v : Var → Option ℚ) : Except String (List SelRow) :=
  selRowsFrom inp v (S inp)

/-- A row of `results/assignments.csv`. -/
structure AssignRow where
  person : String
  role : String
  story_id : String
  hours : ℚ
deriving DecidableEq, Repr

/-- The assignment view of lines 173-178. `if hrs and hrs > 1e-4` never raises:
a `None` value is falsy and short-circuits. -/
def assignView (inp : Input) (v : Var → Option ℚ) : List AssignRow :=
  (ids inp).flatMap fun i =>
    (S inp).filterMap fun s =>
      match v (Var.x i s) with
      | none => none
      | some h =>
        if h ≠ 0 ∧ (1 : ℚ)/10000 < h then
          some { person := i, role := role_of inp i, story_id := s, hours := round2 h }
        else none

/-- A row of `results/person_utilization.csv`. -/
structure UtilRow where
  person : String
  role : String
  hours_used : ℚ
  capacity : ℚ
  utilization : ℚ
  active : Int
  released : Int
deriving DecidableEq, Repr

/-- Python `sum` over optional floats: raises `TypeError` at the first `None`. -/
def sumOpt : List (Option ℚ) → Except String ℚ
  | [] => Except.ok 0
  | none :: _ => Except.error "TypeError"
  | some q :: rest =>
    match sumOpt rest with
    | Except.error e => Except.error e
    | Except.ok t => Except.ok (q + t)

/-- Python `/`: raises `ZeroDivisionError` when the denominator is zero. -/
def pyDiv (a b : ℚ) : Except String ℚ :=
  if b = 0 then Except.error "ZeroDivisionError" else Except.ok (a / b)

/-- One row of the utilization loop (lines 186-188), including the unguarded
division `(used or 0.0) / cap_i[i]` (`used or 0.0` equals `used` as a number). -/
def utilRow (inp : Input) (v : Var → Option ℚ) (i : String) : Except String UtilRow :=
  match sumOpt ((S inp).map fun s => v (Var.x i s)) with
  | Except.error e => Except.error e
  | Except.ok used =>
    match pyDiv used (cap_i inp i) with
    | Except.error e => Except.error e
    | Except.ok ratio =>
      match pyGtHalf (v (Var.y i)) with
      | Except.error e => Except.error e
      | Except.ok yb =>
        match pyGtHalf (v (Var.rel i)) with
        | Except.error e => Except.error e
        | Except.ok rb =>
          Except.ok { person := i, role := role_of inp i, hours_used := round2 used,
                      capacity := cap_i inp i, utilization := round3 ratio,
                      active := if yb then 1 else 0, released := if rb then 1 else 0 }

def utilRowsFrom (inp : Input) (v : Var → Option ℚ) : List String → Except String (List UtilRow)
  | [] => Except.ok []
  | i :: rest =>
    match utilRow inp v i with
    | Except.error e => Except.error e
    | Except.ok r =>
      match utilRowsFrom inp v rest with
      | Except.error e => Except.error e
      | Except.ok t => Except.ok (r :: t)

/-- The per-person utilization view (lines 185-188). -/
def utilView (inp : Input) (v : Var → Option ℚ) : Except String (List UtilRow) :=
  utilRowsFrom inp v (ids inp)

/-- The first line of `results/summary.txt` (line 196): the solver status string
is echoed verbatim. -/
def summaryStatusLine (status : String) : String := "Status: " ++ status

/-! ## Spec-side formulas (for the refinement claims about the requirement
calculator), and small helpers for the claim statements. -/

/-- Required hours as the spec words them: points × hours-per-point × share,
with QA additionally scaled by the coverage factor, and the meeting load added
for QA and team-lead when positive. -/
def reqSpec (inp : Input) (s : String) (r : String) : ℚ :=
  (points inp s : ℚ) * inp.cfg.hours_per_point * role_share inp r
      * (if r = "QA" then inp.cfg.qa_coverage_factor else 1)
    + (if (r = "QA" ∨ r = "TL") ∧ 0 < mtg_per_story inp r then mtg_per_story inp r else 0)

/-- Effective capacity as the spec words it: summed person capacity minus
bugs × bug-hours, with QA further clamped by raw capacity × WIP factor. -/
def roleCapEffSpec (inp : Input) (r : String) : ℚ :=
  if r = "QA" then
    min (role_cap inp "QA" - (inp.cfg.bugs_per_sprint : ℚ) * bug_hours_per_bug inp "QA")
        (role_cap inp "QA" * inp.cfg.wip_factor_QA_capacity)
  else role_cap inp r - (inp.cfg.bugs_per_sprint : ℚ) * bug_hours_per_bug inp r

/-- The story id a variable refers to, if any. -/
def varStory : Var → Option String
  | Var.x _ s => some s
  | Var.z s => some s
  | Var.owner _ s => some s
  | Var.y _ => none
  | Var.rel _ => none

/-- Whether a person id has a developer ("BE"/"FE") role. -/
def isDev (inp : Input) (i : String) : Bool :=
  role_of inp i == "BE" || role_of inp i == "FE"

/-- A variable is well-placed for a constraint term: any story it refers to is
eligible, and if it is an owner variable its person is a developer. -/
def TermOK (inp : Input) (w : Var) : Prop :=
  (∀ s, varStory w = some s → s ∈ S inp) ∧ (∀ i s, w = Var.owner i s → i ∈ devs inp)

/-! ## Concrete inputs and valuations used to witness the claims. -/

/-- A small well-formed configuration. -/
def cfgW : Config :=
  { hours_per_point := 2, bugs_per_sprint := 0, max_points_per_dev := 13,
    lambda_people_penalty := 1, require_release_for_roles := ["BE", "FE"],
    min_hours_to_count_release := 1, qa_coverage_factor := 1,
    wip_factor_QA_capacity := 1, forbid_points := [] }

/-- One BE developer, one eligible story. -/
def inpW : Input :=
  { people := [⟨"d1", "BE", 10⟩], stories := [⟨"s1", 2, 5, ""⟩],
    roles := [⟨"BE", 1, 0, 0⟩], cfg := cfgW }

/-- A feasible solution of `buildModel inpW`: the story is selected and owned
by the single developer, who invests 4 hours. -/
def vW : Var → ℚ
  | Var.x _ _ => 4
  | Var.z _ => 1
  | Var.y _ => 1
  | Var.owner _ _ => 1
  | Var.rel _ => 1

/-- The valuation of a run in which the solver attached no value to any
variable (`pl.value` returns `None` everywhere). -/
def noSolution : Var → Option ℚ := fun _ => none

/-- The valuation of a solved run in which every variable is 0 (the all-zero
point satisfies every constraint of the model). -/
def zeroSolution : Var → Option ℚ := fun _ => some 0

/-- A roster containing a person with capacity 0 (the data-model invariant
only requires capacity ≥ 0). -/
def inpZeroCap : Input :=
  { people := [⟨"p0", "BE", 0⟩], stories := [⟨"s1", 3, 5, ""⟩],
    roles := [⟨"BE", 1, 0, 0⟩], cfg := cfgW }

/-- Two stories with a dependency: "s2" depends on "p1". -/
def inpDep : Input :=
  { people := [⟨"d1", "BE", 10⟩], stories := [⟨"p1", 2, 5, ""⟩, ⟨"s2", 2, 4, "p1"⟩],
    roles := [⟨"BE", 1, 0, 0⟩], cfg := cfgW }

/-- A forbidden story "sf" (13 points, with 13 in `forbid_points`) that "s1"
depends on. -/
def inpForb : Input :=
  { people := [⟨"d1", "BE", 10⟩], stories := [⟨"sf", 13, 1, ""⟩, ⟨"s1", 3, 5, "sf"⟩],
    roles := [⟨"BE", 1, 0, 0⟩],
    cfg := { cfgW with forbid_points := [13] } }

/-- A roster whose only person is QA (not a developer role). -/
def inpQA : Input :=
  { people := [⟨"q1", "QA", 10⟩], stories := [⟨"s1", 3, 5, ""⟩],
    roles := [⟨"QA", 1, 0, 0⟩], cfg := cfgW }

/-! ## Theorems. -/

/-- C1: the claim says every solve outcome yields well-defined output with
empty views when no solution values are available. The code disagrees: with no
solution values (`pl.value` returning `None` everywhere, as for a not-solved
outcome), the selection view evaluates `None > 0.5` and the utilization view
sums `None`s — both raise `TypeError` instead of producing empty output. -/
theorem C1_extraction_raises_without_values :
    selectedView inpW noSolution = Except.error "TypeError"
      ∧ utilView inpW noSolution = Except.error "TypeError" := by
  constructor
  · with_unfolding_all rfl
  · with_unfolding_all rfl

/-- C2: the claim says the utilization view never divides by zero capacity.
The code divides `used / cap_i[i]` unguarded: for a person with capacity 0 in a
solved run (all-zero solution), the view raises `ZeroDivisionError`. -/
theorem C2_utilization_division_by_zero :
    utilView inpZeroCap zeroSolution = Except.error "ZeroDivisionError" := by
  with_unfolding_all rfl

/-- C3: for each of the five modeled roles, the required hours equal
points × hours-per-point × share, QA further scaled by the coverage factor,
plus the meeting load for QA and TL when positive (absent roles share 0 via
`role_share`'s dictionary default). -/
theorem C3_required_hours (inp : Input) (s r : String) (hr : r ∈ roleList) :
    req inp s r = reqSpec inp s r := by
  have hcases : r = "BE" ∨ r = "FE" ∨ r = "QA" ∨ r = "TL" ∨ r = "ARQ" := by
    simpa [roleList] using hr
  rcases hcases with rfl | rfl | rfl | rfl | rfl <;>
    simp [req, reqBase, reqSpec, hrs_tot] <;>
    first
    | ring1
    | (split_ifs <;> ring1)

theorem C3_witness : "QA" ∈ roleList ∧ req inpW "s1" "QA" = reqSpec inpW "s1" "QA" :=
  ⟨by decide, C3_required_hours inpW "s1" "QA" (by decide)⟩

/-- C4: for every role present in the role records, the effective capacity is
summed person capacity minus bugs × bug-hours-per-bug, and for QA it is further
clamped to raw summed capacity times the WIP factor. -/
theorem C4_effective_capacity (inp : Input) (r : String) (hr : inR inp r = true) :
    role_cap_eff inp r = some (roleCapEffSpec inp r) := by
  by_cases hq : r = "QA"
  · subst hq
    simp [role_cap_eff, roleCapEffSpec, role_capGet, role_bug_reserve, hr]
  · simp [role_cap_eff, roleCapEffSpec, role_bug_reserve, hq, hr]

theorem C4_witness :
    inR inpW "BE" = true ∧ role_cap_eff inpW "BE" = some (roleCapEffSpec inpW "BE") :=
  ⟨by decide, C4_effective_capacity inpW "BE" (by decide)⟩


theorem devs_subset_ids (inp : Input) {i : String} (h : i ∈ devs inp) : i ∈ ids inp :=
  List.mem_of_mem_filter h

theorem sum_map_neg {α : Type} (l : List α) (f : α → ℚ) :
    (l.map fun a => -f a).sum = -(l.map f).sum := by
  induction l with
  | nil => simp
  | cons a t ih => simp [ih]; ring

theorem decide_rat_zero_eq_one : (decide ((0 : ℚ) = 1)) = false := by
  with_unfolding_all rfl

theorem decide_rat_one_eq_one : (decide ((1 : ℚ) = 1)) = true := by
  with_unfolding_all rfl

theorem sum_binary_eq_countP (l : List ℚ) :
    (∀ q ∈ l, q = 0 ∨ q = 1) →
      l.sum = ((l.countP fun q => decide (q = 1) : ℕ) : ℚ) := by
  induction l with
  | nil => intro _h; simp
  | cons a t ih =>
    intro h
    have ht := ih fun q hq => h q (List.mem_cons_of_mem a hq)
    rcases h a (List.mem_cons_self a t) with ha | ha
    · subst ha
      simp [List.countP_cons, decide_rat_zero_eq_one, ht]
    · subst ha
      simp [List.countP_cons, decide_rat_one_eq_one, ht]
      ring

theorem constraints_eq (inp : Input) :
    (buildModel inp).constraints = capCs inp ++ reqCs inp ++ roleCapCs inp ++ ownerCs inp
      ++ pointsCapCs inp ++ relCs inp ++ depCs inp := rfl

theorem ownerOne_mem_constraints (inp : Input) {s : String} (hs : s ∈ S inp) :
    ownerOneConstr inp s ∈ (buildModel inp).constraints := by
  rw [constraints_eq]
  simp only [List.mem_append]
  refine Or.inl (Or.inl (Or.inl (Or.inr ?_)))
  exact List.mem_flatMap.2 ⟨s, hs, List.mem_cons_self _ _⟩

theorem relLink_mem_constraints (inp : Input) {i : String} (hi : i ∈ devs inp) :
    relLinkConstr inp i ∈ (buildModel inp).constraints := by
  rw [constraints_eq]
  simp only [List.mem_append]
  refine Or.inl (Or.inr ?_)
  exact List.mem_flatMap.2 ⟨i, hi, List.mem_cons_self _ _⟩

theorem relActive_mem_constraints (inp : Input) {i : String} (hi : i ∈ devs inp) :
    relActiveConstr i ∈ (buildModel inp).constraints := by
  rw [constraints_eq]
  simp only [List.mem_append]
  refine Or.inl (Or.inr ?_)
  refine List.mem_flatMap.2 ⟨i, hi, ?_⟩
  simp

theorem dep_mem_constraints (inp : Input) {s p : String} (hd : (s, p) ∈ deps inp)
    (hp : p ∈ S inp) :
    depConstr s p ∈ (buildModel inp).constraints := by
  rw [constraints_eq]
  simp only [List.mem_append]
  refine Or.inr ?_
  refine List.mem_filterMap.2 ⟨(s, p), hd, ?_⟩
  simp [hp]

theorem sat_ownerOne_sum (inp : Input) (v : Var → ℚ) (hsat : Sat (buildModel inp) v)
    {s : String} (hs : s ∈ S inp) :
    ((devs inp).map fun i => v (Var.owner i s)).sum = v (Var.z s) := by
  have h := hsat _ (ownerOne_mem_constraints inp hs)
  simp only [holds, ownerOneConstr, decide_eq_true_eq] at h
  rw [evalTerms] at h
  simp only [List.map_append, List.map_map, List.sum_append, List.map_cons, List.map_nil,
    List.sum_cons, List.sum_nil, Function.comp_def, one_mul, neg_one_mul, add_zero] at h
  linarith

theorem sat_relLink_le (inp : Input) (v : Var → ℚ) (hsat : Sat (buildModel inp) v)
    {i : String} (hi : i ∈ devs inp) :
    v (Var.rel i) ≤ ((S inp).map fun s => v (Var.owner i s)).sum := by
  have h := hsat _ (relLink_mem_constraints inp hi)
  simp only [holds, relLinkConstr, decide_eq_true_eq] at h
  rw [evalTerms] at h
  simp only [List.map_cons, List.map_map, List.sum_cons, Function.comp_def, one_mul,
    neg_one_mul] at h
  rw [show ((S inp).map fun s => -v (Var.owner i s)).sum
      = -((S inp).map fun s => v (Var.owner i s)).sum from sum_map_neg _ _] at h
  linarith

theorem sat_relActive_le (inp : Input) (v : Var → ℚ) (hsat : Sat (buildModel inp) v)
    {i : String} (hi : i ∈ devs inp) :
    v (Var.y i) ≤ v (Var.rel i) := by
  have h := hsat _ (relActive_mem_constraints inp hi)
  simp only [holds, relActiveConstr, decide_eq_true_eq] at h
  rw [evalTerms] at h
  simp only [List.map_cons, List.map_nil, List.sum_cons, List.sum_nil, one_mul, neg_one_mul,
    add_zero] at h
  linarith

/-- C5 -/
theorem C5_single_owner (inp : Input) (v : Var → ℚ) (hv : ValidVal inp v)
    (hsat : Sat (buildModel inp) v) (s : String) (hs : s ∈ S inp) :
    ((devs inp).countP fun i => decide (v (Var.owner i s) = 1))
      = if v (Var.z s) = 1 then 1 else 0 := by
  have hsum := sat_ownerOne_sum inp v hsat hs
  have hbin : ∀ q ∈ (devs inp).map fun i => v (Var.owner i s), q = 0 ∨ q = 1 := by
    intro q hq
    rcases List.mem_map.1 hq with ⟨i, hi, rfl⟩
    exact (hv.2.2 i (devs_subset_ids inp hi) s hs).1
  rw [sum_binary_eq_countP _ hbin, List.countP_map] at hsum
  simp only [Function.comp_def] at hsum
  rcases hv.1 s hs with hz | hz <;> rw [hz] at hsum ⊢
  · have h0 : ((devs inp).countP fun i => decide (v (Var.owner i s) = 1)) = 0 := by
      exact_mod_cast hsum
    rw [h0]
    norm_num
  · have h1 : ((devs inp).countP fun i => decide (v (Var.owner i s) = 1)) = 1 := by
      exact_mod_cast hsum
    rw [h1]
    norm_num

theorem C5_witness :
    ValidVal inpW vW ∧ Sat (buildModel inpW) vW
      ∧ ((devs inpW).countP fun i => decide (vW (Var.owner i "s1") = 1))
          = if vW (Var.z "s1") = 1 then 1 else 0 :=
  ⟨by with_unfolding_all decide, by with_unfolding_all decide,
    C5_single_owner inpW vW (by with_unfolding_all decide) (by with_unfolding_all decide)
      "s1" (by decide)⟩

/-- C6 -/
theorem C6_release_rules (inp : Input) (v : Var → ℚ) (hv : ValidVal inp v)
    (hsat : Sat (buildModel inp) v) (i : String) (hi : i ∈ devs inp) :
    (v (Var.rel i) ≤ (((S inp).countP fun s => decide (v (Var.owner i s) = 1) : ℕ) : ℚ))
      ∧ v (Var.y i) ≤ v (Var.rel i)
      ∧ (v (Var.y i) = 1 →
          v (Var.rel i) = 1
            ∧ 1 ≤ (S inp).countP fun s => decide (v (Var.owner i s) = 1)) := by
  have hlink := sat_relLink_le inp v hsat hi
  have hbin : ∀ q ∈ (S inp).map fun s => v (Var.owner i s), q = 0 ∨ q = 1 := by
    intro q hq
    rcases List.mem_map.1 hq with ⟨s, hs, rfl⟩
    exact (hv.2.2 i (devs_subset_ids inp hi) s hs).1
  rw [sum_binary_eq_countP _ hbin, List.countP_map] at hlink
  simp only [Function.comp_def] at hlink
  have hact := sat_relActive_le inp v hsat hi
  refine ⟨hlink, hact, ?_⟩
  intro hy
  have hrel1 : v (Var.rel i) = 1 := by
    rcases (hv.2.1 i (devs_subset_ids inp hi)).2 with h0 | h1
    · rw [hy] at hact
      rw [h0] at hact
      linarith
    · exact h1
  refine ⟨hrel1, ?_⟩
  rw [hrel1] at hlink
  exact_mod_cast hlink

theorem C6_witness :
    ValidVal inpW vW ∧ Sat (buildModel inpW) vW ∧ "d1" ∈ devs inpW
      ∧ ((vW (Var.rel "d1")
            ≤ (((S inpW).countP fun s => decide (vW (Var.owner "d1" s) = 1) : ℕ) : ℚ))
          ∧ vW (Var.y "d1") ≤ vW (Var.rel "d1")
          ∧ (vW (Var.y "d1") = 1 →
              vW (Var.rel "d1") = 1
                ∧ 1 ≤ (S inpW).countP fun s => decide (vW (Var.owner "d1" s) = 1))) :=
  ⟨by with_unfolding_all decide, by with_unfolding_all decide, by decide,
    C6_release_rules inpW vW (by with_unfolding_all decide) (by with_unfolding_all decide)
      "d1" (by decide)⟩

/-- C7 -/
theorem C7_dependency (inp : Input) (s p : String) (hd : (s, p) ∈ deps inp)
    (hp : p ∈ S inp) :
    depConstr s p ∈ (buildModel inp).constraints
      ∧ ∀ v : Var → ℚ, ValidVal inp v → Sat (buildModel inp) v →
          v (Var.z s) = 1 → v (Var.z p) = 1 := by
  refine ⟨dep_mem_constraints inp hd hp, ?_⟩
  intro v hv hsat hzs
  have h := hsat _ (dep_mem_constraints inp hd hp)
  simp only [holds, depConstr, decide_eq_true_eq] at h
  rw [evalTerms] at h
  simp only [List.map_cons, List.map_nil, List.sum_cons, List.sum_nil, one_mul, neg_one_mul,
    add_zero] at h
  rcases hv.1 p hp with h0 | h1
  · rw [hzs, h0] at h
    linarith
  · exact h1

theorem C7_witness :
    ("s2", "p1") ∈ deps inpDep ∧ "p1" ∈ S inpDep
      ∧ (depConstr "s2" "p1" ∈ (buildModel inpDep).constraints
          ∧ ∀ v : Var → ℚ, ValidVal inpDep v → Sat (buildModel inpDep) v →
              v (Var.z "s2") = 1 → v (Var.z "p1") = 1) :=
  ⟨by with_unfolding_all decide, by decide,
    C7_dependency inpDep "s2" "p1" (by with_unfolding_all decide) (by decide)⟩


theorem findOwner_congr (v : Var → Option ℚ) (s : String) (d d' : List String)
    (hd : d = d') : findOwner v s d = findOwner v s d' := by rw [hd]

theorem selRowsFrom_congr (inp inp' : Input) (v : Var → Option ℚ)
    (hdevs : devs inp = devs inp')
    (hpts : ∀ s, points inp s = points inp' s)
    (hval : ∀ s, value inp s = value inp' s) :
    ∀ l : List String, selRowsFrom inp v l = selRowsFrom inp' v l := by
  intro l
  induction l with
  | nil => rfl
  | cons s rest ih =>
    rw [selRowsFrom, selRowsFrom, hdevs, hpts s, hval s, ih]

theorem assignView_congr (inp inp' : Input) (v : Var → Option ℚ)
    (hids : ids inp = ids inp') (hS : S inp = S inp')
    (hrole : ∀ i, role_of inp i = role_of inp' i) :
    assignView inp v = assignView inp' v := by
  simp only [assignView, hids, hS, hrole]

theorem utilRowsFrom_congr (inp inp' : Input) (v : Var → Option ℚ)
    (hS : S inp = S inp')
    (hcap : ∀ i, cap_i inp i = cap_i inp' i)
    (hrole : ∀ i, role_of inp i = role_of inp' i) :
    ∀ l : List String, utilRowsFrom inp v l = utilRowsFrom inp' v l := by
  intro l
  induction l with
  | nil => rfl
  | cons i rest ih =>
    rw [utilRowsFrom, utilRowsFrom, utilRow, utilRow, hS, hcap i, hrole i, ih]

/-- C10 -/
theorem C10_release_roles_ignored (people : List PersonRow) (stories : List StoryRow)
    (roles : List RoleRow) (cfg : Config) (q : List String) (v : Var → Option ℚ) :
    buildModel ⟨people, stories, roles, { cfg with require_release_for_roles := q }⟩
        = buildModel ⟨people, stories, roles, cfg⟩
      ∧ selectedView ⟨people, stories, roles, { cfg with require_release_for_roles := q }⟩ v
          = selectedView ⟨people, stories, roles, cfg⟩ v
      ∧ assignView ⟨people, stories, roles, { cfg with require_release_for_roles := q }⟩ v
          = assignView ⟨people, stories, roles, cfg⟩ v
      ∧ utilView ⟨people, stories, roles, { cfg with require_release_for_roles := q }⟩ v
          = utilView ⟨people, stories, roles, cfg⟩ v := by
  cases cfg with
  | mk hpp bugs maxp lam rrr minh qac wip forb =>
    refine ⟨rfl, ?_, ?_, ?_⟩
    · exact selRowsFrom_congr
        ⟨people, stories, roles, ⟨hpp, bugs, maxp, lam, q, minh, qac, wip, forb⟩⟩
        ⟨people, stories, roles, ⟨hpp, bugs, maxp, lam, rrr, minh, qac, wip, forb⟩⟩
        v rfl (fun _ => rfl) (fun _ => rfl) _
    · exact assignView_congr
        ⟨people, stories, roles, ⟨hpp, bugs, maxp, lam, q, minh, qac, wip, forb⟩⟩
        ⟨people, stories, roles, ⟨hpp, bugs, maxp, lam, rrr, minh, qac, wip, forb⟩⟩
        v rfl rfl (fun _ => rfl)
    · exact utilRowsFrom_congr
        ⟨people, stories, roles, ⟨hpp, bugs, maxp, lam, q, minh, qac, wip, forb⟩⟩
        ⟨people, stories, roles, ⟨hpp, bugs, maxp, lam, rrr, minh, qac, wip, forb⟩⟩
        v rfl (fun _ => rfl) (fun _ => rfl) _


theorem termOK_x (inp : Input) (i : String) {s : String} (hs : s ∈ S inp) :
    TermOK inp (Var.x i s) := by
  constructor
  · intro s' hs'
    simp only [varStory, Option.some.injEq] at hs'
    exact hs' ▸ hs
  · intro i' s' h
    simp at h

theorem termOK_z (inp : Input) {s : String} (hs : s ∈ S inp) :
    TermOK inp (Var.z s) := by
  constructor
  · intro s' hs'
    simp only [varStory, Option.some.injEq] at hs'
    exact hs' ▸ hs
  · intro i' s' h
    simp at h

theorem termOK_y (inp : Input) (i : String) : TermOK inp (Var.y i) := by
  constructor
  · intro s' hs'
    simp [varStory] at hs'
  · intro i' s' h
    simp at h

theorem termOK_rel (inp : Input) (i : String) : TermOK inp (Var.rel i) := by
  constructor
  · intro s' hs'
    simp [varStory] at hs'
  · intro i' s' h
    simp at h

theorem termOK_owner (inp : Input) {i s : String} (hs : s ∈ S inp)
    (hi : i ∈ devs inp) : TermOK inp (Var.owner i s) := by
  constructor
  · intro s' hs'
    simp only [varStory, Option.some.injEq] at hs'
    exact hs' ▸ hs
  · intro i' s' h
    simp only [Var.owner.injEq] at h
    exact h.1 ▸ hi

theorem deps_fst_mem_S (inp : Input) {sp : String × String} (h : sp ∈ deps inp) :
    sp.1 ∈ S inp := by
  obtain ⟨a, b⟩ := sp
  rcases List.mem_filterMap.1 h with ⟨st, hst, hf⟩
  by_cases hk : keepStory inp st = true
  · rw [if_pos hk] at hf
    by_cases hd : pyStrip st.depends_on ≠ ""
    · rw [if_pos hd] at hf
      simp only [Option.some.injEq, Prod.mk.injEq] at hf
      exact hf.1 ▸ List.mem_map.2 ⟨st, List.mem_filter.2 ⟨hst, hk⟩, rfl⟩
    · rw [if_neg hd] at hf
      cases hf
  · rw [if_neg hk] at hf
    cases hf

theorem constr_terms_shape (inp : Input) (c : Constr)
    (hc : c ∈ (buildModel inp).constraints) :
    ∀ t ∈ c.terms, TermOK inp t.2 := by
  rw [constraints_eq] at hc
  simp only [List.mem_append] at hc
  rcases hc with ((((((hc | hc) | hc) | hc) | hc) | hc) | hc)
  · -- capCs
    rcases List.mem_map.1 hc with ⟨i, _hi, rfl⟩
    intro t ht
    simp only [capConstr, List.mem_append, List.mem_map, List.mem_singleton] at ht
    rcases ht with ⟨s, hs, rfl⟩ | rfl
    · exact termOK_x inp i hs
    · exact termOK_y inp i
  · -- reqCs
    simp only [reqCs, List.mem_flatMap, List.mem_filterMap] at hc
    rcases hc with ⟨s, hs, r, _hr, hsome⟩
    by_cases hk : I_by_role_hasKey inp r = true
    · rw [if_pos hk] at hsome
      simp only [Option.some.injEq] at hsome
      subst hsome
      intro t ht
      simp only [reqConstr, List.mem_append, List.mem_map, List.mem_singleton] at ht
      rcases ht with ⟨i, _hi, rfl⟩ | rfl
      · exact termOK_x inp i hs
      · exact termOK_z inp hs
    · rw [if_neg hk] at hsome
      cases hsome
  · -- roleCapCs
    simp only [roleCapCs, List.mem_filterMap] at hc
    rcases hc with ⟨r, _hr, hsome⟩
    by_cases hk : I_by_role_hasKey inp r = true
    · rw [if_pos hk] at hsome
      simp only [Option.some.injEq] at hsome
      subst hsome
      intro t ht
      simp only [roleCapConstr, List.mem_flatMap, List.mem_map] at ht
      rcases ht with ⟨s, hs, i, _hi, rfl⟩
      exact termOK_x inp i hs
    · rw [if_neg hk] at hsome
      cases hsome
  · -- ownerCs
    simp only [ownerCs, List.mem_flatMap, List.mem_cons, List.mem_map] at hc
    rcases hc with ⟨s, hs, rfl | ⟨i, hi, rfl⟩⟩
    · intro t ht
      simp only [ownerOneConstr, List.mem_append, List.mem_map, List.mem_singleton] at ht
      rcases ht with ⟨i, hi, rfl⟩ | rfl
      · exact termOK_owner inp hs hi
      · exact termOK_z inp hs
    · intro t ht
      simp only [ownerHoursConstr, List.mem_cons, List.mem_singleton, List.not_mem_nil] at ht
      rcases ht with rfl | rfl | hff
      · exact termOK_x inp i hs
      · exact termOK_owner inp hs hi
      · cases hff
  · -- pointsCapCs
    rcases List.mem_map.1 hc with ⟨i, hi, rfl⟩
    intro t ht
    simp only [pointsCapConstr, List.mem_map] at ht
    rcases ht with ⟨s, hs, rfl⟩
    exact termOK_owner inp hs hi
  · -- relCs
    simp only [relCs, List.mem_flatMap, List.mem_cons, List.not_mem_nil, or_false] at hc
    rcases hc with ⟨i, hi, rfl | rfl⟩
    · intro t ht
      simp only [relLinkConstr, List.mem_cons, List.mem_map] at ht
      rcases ht with rfl | ⟨s, hs, rfl⟩
      · exact termOK_rel inp i
      · exact termOK_owner inp hs hi
    · intro t ht
      simp only [relActiveConstr, List.mem_cons, List.not_mem_nil, or_false] at ht
      rcases ht with rfl | rfl
      · exact termOK_rel inp i
      · exact termOK_y inp i
  · -- depCs
    simp only [depCs, List.mem_filterMap] at hc
    rcases hc with ⟨sp, hsp, hsome⟩
    by_cases hk : (S inp).contains sp.2 = true
    · rw [if_pos hk] at hsome
      simp only [Option.some.injEq] at hsome
      subst hsome
      intro t ht
      simp only [depConstr, List.mem_cons, List.not_mem_nil, or_false] at ht
      rcases ht with rfl | rfl
      · exact termOK_z inp (deps_fst_mem_S inp hsp)
      · exact termOK_z inp (by simpa using hk)
    · rw [if_neg hk] at hsome
      cases hsome

theorem forbidden_not_mem_S (inp : Input) (st : StoryRow) (hst : st ∈ inp.stories)
    (hforb : st.points ∈ inp.cfg.forbid_points)
    (hnodup : (inp.stories.map (·.story_id)).Nodup) :
    st.story_id ∉ S inp := by
  intro hmem
  rcases List.mem_map.1 hmem with ⟨st', hst', hid⟩
  have hst'mem : st' ∈ inp.stories := List.mem_of_mem_filter hst'
  have hkeep : keepStory inp st' = true := List.of_mem_filter hst'
  have heq : st' = st := List.inj_on_of_nodup_map hnodup hst'mem hst hid
  subst heq
  simp only [keepStory, Bool.not_eq_true'] at hkeep
  simp at hkeep
  exact hkeep hforb

theorem mem_modelVars_story (inp : Input) (w : Var) (hw : w ∈ modelVars inp)
    (t : String) (ht : varStory w = some t) : t ∈ S inp := by
  simp only [modelVars, List.mem_append, List.mem_flatMap, List.mem_map] at hw
  rcases hw with ((((⟨i, hi, s, hs, rfl⟩ | ⟨s, hs, rfl⟩) | ⟨i, hi, rfl⟩)
    | ⟨i, hi, s, hs, rfl⟩) | ⟨i, hi, rfl⟩)
  · simp only [varStory, Option.some.injEq] at ht
    exact ht ▸ hs
  · simp only [varStory, Option.some.injEq] at ht
    exact ht ▸ hs
  · simp [varStory] at ht
  · simp only [varStory, Option.some.injEq] at ht
    exact ht ▸ hs
  · simp [varStory] at ht

theorem owner_mem_modelVars (inp : Input) (i s : String) :
    Var.owner i s ∈ modelVars inp ↔ i ∈ ids inp ∧ s ∈ S inp := by
  simp only [modelVars, List.mem_append, List.mem_flatMap, List.mem_map]
  constructor
  · rintro ((((⟨i', hi', s', hs', heq⟩ | ⟨s', hs', heq⟩) | ⟨i', hi', heq⟩)
      | ⟨i', hi', s', hs', heq⟩) | ⟨i', hi', heq⟩) <;> cases heq
    exact ⟨hi', hs'⟩
  · rintro ⟨hi, hs⟩
    exact Or.inl (Or.inr ⟨i, hi, s, hs, rfl⟩)

theorem selRowsFrom_stories (inp : Input) (v : Var → Option ℚ) :
    ∀ (l : List String) (rows : List SelRow), selRowsFrom inp v l = Except.ok rows →
      ∀ row ∈ rows, row.story_id ∈ l := by
  intro l
  induction l with
  | nil =>
    intro rows h row hr
    simp only [selRowsFrom, Except.ok.injEq] at h
    subst h
    cases hr
  | cons s rest ih =>
    intro rows h row hr
    rw [selRowsFrom] at h
    split at h
    · cases h
    · split at h
      · split at h
        · cases h
        · split at h
          · cases h
          · simp only [Except.ok.injEq] at h
            subst h
            rcases List.mem_cons.1 hr with rfl | hr'
            · exact List.mem_cons_self _ _
            · rename_i htail
              exact List.mem_cons_of_mem _ (ih _ htail row hr')
      · exact List.mem_cons_of_mem _ (ih _ h row hr)

theorem assignView_stories (inp : Input) (v : Var → Option ℚ) (row : AssignRow)
    (hr : row ∈ assignView inp v) : row.story_id ∈ S inp := by
  simp only [assignView, List.mem_flatMap] at hr
  rcases hr with ⟨i, _hi, hrow⟩
  rcases List.mem_filterMap.1 hrow with ⟨s, hs, hf⟩
  split at hf
  · cases hf
  · split at hf
    · simp only [Option.some.injEq] at hf
      subst hf
      exact hs
    · cases hf


/-- C8 -/
theorem C8_forbidden_story_excluded (inp : Input) (st : StoryRow)
    (hst : st ∈ inp.stories) (hforb : st.points ∈ inp.cfg.forbid_points)
    (hnodup : (inp.stories.map (·.story_id)).Nodup) :
    (∀ w ∈ (buildModel inp).vars, varStory w ≠ some st.story_id)
      ∧ (∀ c ∈ (buildModel inp).constraints, ∀ t ∈ c.terms,
          varStory (Prod.snd t) ≠ some st.story_id)
      ∧ (∀ (v : Var → Option ℚ) (rows : List SelRow),
          selectedView inp v = Except.ok rows → ∀ row ∈ rows, row.story_id ≠ st.story_id)
      ∧ (∀ v : Var → Option ℚ, ∀ row ∈ assignView inp v, row.story_id ≠ st.story_id) := by
  have hnot := forbidden_not_mem_S inp st hst hforb hnodup
  refine ⟨?_, ?_, ?_, ?_⟩
  · intro w hw heq
    exact hnot (mem_modelVars_story inp w hw _ heq)
  · intro c hc t ht heq
    exact hnot ((constr_terms_shape inp c hc t ht).1 _ heq)
  · intro v rows hrows row hr heq
    exact hnot (heq ▸ selRowsFrom_stories inp v (S inp) rows hrows row hr)
  · intro v row hr heq
    exact hnot (heq ▸ assignView_stories inp v row hr)

theorem C8_witness :
    ((⟨"sf", 13, 1, ""⟩ : StoryRow) ∈ inpForb.stories
        ∧ (13 : Int) ∈ inpForb.cfg.forbid_points
        ∧ (inpForb.stories.map (·.story_id)).Nodup)
      ∧ ((∀ w ∈ (buildModel inpForb).vars, varStory w ≠ some "sf")
          ∧ (∀ c ∈ (buildModel inpForb).constraints, ∀ t ∈ c.terms,
              varStory (Prod.snd t) ≠ some "sf")
          ∧ (∀ (v : Var → Option ℚ) (rows : List SelRow),
              selectedView inpForb v = Except.ok rows → ∀ row ∈ rows, row.story_id ≠ "sf")
          ∧ (∀ v : Var → Option ℚ, ∀ row ∈ assignView inpForb v, row.story_id ≠ "sf")) :=
  ⟨⟨by decide, by decide, by decide⟩,
    C8_forbidden_story_excluded inpForb ⟨"sf", 13, 1, ""⟩ (by decide) (by decide) (by decide)⟩

/-- C9 counterexample -/
theorem C9_counterexample :
    role_of inpQA "q1" = "QA"
      ∧ ¬(role_of inpQA "q1" = "BE" ∨ role_of inpQA "q1" = "FE")
      ∧ Var.owner "q1" "s1" ∈ (buildModel inpQA).vars := by
  decide

/-- C9 amended -/
theorem C9_owner_vars_for_all_people (inp : Input) (i s : String) :
    (Var.owner i s ∈ (buildModel inp).vars ↔ i ∈ ids inp ∧ s ∈ S inp)
      ∧ (∀ c ∈ (buildModel inp).constraints, ∀ t ∈ c.terms,
          ∀ i' s', Prod.snd t = Var.owner i' s' → i' ∈ devs inp)
      ∧ (∀ t ∈ (buildModel inp).objective, ∀ i' s', Prod.snd t ≠ Var.owner i' s') := by
  refine ⟨owner_mem_modelVars inp i s, ?_, ?_⟩
  · intro c hc t ht i' s' heq
    exact (constr_terms_shape inp c hc t ht).2 i' s' heq
  · intro t ht i' s' heq
    have ht' : t ∈ objectiveTerms inp := ht
    simp only [objectiveTerms, List.mem_append, List.mem_map] at ht'
    rcases ht' with ⟨s0, _hs0, rfl⟩ | ⟨i0, _hi0, rfl⟩ <;> simp at heq

theorem C9_witness :
    (Var.owner "q1" "s1" ∈ (buildModel inpQA).vars ↔ "q1" ∈ ids inpQA ∧ "s1" ∈ S inpQA)
      ∧ (∀ c ∈ (buildModel inpQA).constraints, ∀ t ∈ c.terms,
          ∀ i' s', Prod.snd t = Var.owner i' s' → i' ∈ devs inpQA)
      ∧ (∀ t ∈ (buildModel inpQA).objective, ∀ i' s', Prod.snd t ≠ Var.owner i' s') :=
  C9_owner_vars_for_all_people inpQA "q1" "s1"

end SprintPlanning
